import Mathlib

/-
  Verification of the module-resolution and caching layer (deno_dir.rs).

  Strings from the Rust source are modelled as lists of characters
  (abbrev Str); paths are plain posix strings with a slash separator.
  Pure string manipulation (src_file_to_url, get_cache_filename,
  resolve_module, source_code_hash) is embedded directly; filesystem,
  network and logging effects are embedded by explicit state passing
  over a World record (files, directories, the log of fetch-primitive
  invocations, and the remote server contents).
-/

set_option maxRecDepth 10000

abbrev Str := List Char

/-! ## SHA-1 and the content hasher (source_code_hash)

The Rust code feeds filename bytes then source bytes into
ring::digest::SHA1 and prints each digest byte with a two-digit
lowercase hex format.  SHA-1 itself is external to the repository
(the ring crate); it is embedded here from the FIPS 180 definition,
operating on byte lists with explicit reduction modulo 2^32. -/

def rotl (n x : Nat) : Nat := ((x <<< n) ||| (x >>> (32 - n))) % 4294967296

/-- Big-endian byte list of a number, fixed width k. -/
def beBytes : Nat → Nat → List Nat
  | 0, _ => []
  | k + 1, n => beBytes k (n / 256) ++ [n % 256]

/-- Group a byte list into big-endian 32-bit words. -/
def toWords : List Nat → List Nat
  | b0 :: b1 :: b2 :: b3 :: rest =>
    (((b0 * 256 + b1) * 256 + b2) * 256 + b3) :: toWords rest
  | _ => []

/-- Extend the 16 message-schedule words, k more steps. -/
def expandW (w : List Nat) : Nat → List Nat
  | 0 => w
  | k + 1 =>
    let n := w.length
    expandW (w ++ [rotl 1 ((w.getD (n - 3) 0) ^^^ (w.getD (n - 8) 0) ^^^
      (w.getD (n - 14) 0) ^^^ (w.getD (n - 16) 0))]) k

/-- One SHA-1 round, round index i, schedule w, state (a, b, c, d, e). -/
def sha1Step (w : List Nat) (s : Nat × Nat × Nat × Nat × Nat) (i : Nat) :
    Nat × Nat × Nat × Nat × Nat :=
  let (a, b, c, d, e) := s
  let f :=
    if i < 20 then (b &&& c) ||| ((b ^^^ 4294967295) &&& d)
    else if i < 40 then b ^^^ c ^^^ d
    else if i < 60 then (b &&& c) ||| (b &&& d) ||| (c &&& d)
    else b ^^^ c ^^^ d
  let k :=
    if i < 20 then 1518500249
    else if i < 40 then 1859775393
    else if i < 60 then 2400959708
    else 3395469782
  let temp := (rotl 5 a + f + e + k + w.getD i 0) % 4294967296
  (temp, a, rotl 30 b, c, d)

/-- Compress one block, given as its 16 message words, into the running
5-word state. -/
def sha1Block (h : Nat × Nat × Nat × Nat × Nat) (ws : List Nat) :
    Nat × Nat × Nat × Nat × Nat :=
  let w := expandW ws 64
  let (a, b, c, d, e) := (List.range 80).foldl (sha1Step w) h
  let (h0, h1, h2, h3, h4) := h
  ((h0 + a) % 4294967296, (h1 + b) % 4294967296, (h2 + c) % 4294967296,
   (h3 + d) % 4294967296, (h4 + e) % 4294967296)

/-- Split a word list into 16-word blocks. -/
def blocks16 : List Nat → List (List Nat)
  | w0 :: w1 :: w2 :: w3 :: w4 :: w5 :: w6 :: w7 ::
    w8 :: w9 :: w10 :: w11 :: w12 :: w13 :: w14 :: w15 :: rest =>
    [w0, w1, w2, w3, w4, w5, w6, w7, w8, w9, w10, w11, w12, w13, w14, w15] ::
      blocks16 rest
  | _ => []

/-- SHA-1 padding: a 0x80 byte, zeros, then the bit length, big endian,
so the padded length is a multiple of 64. -/
def sha1Pad (msg : List Nat) : List Nat :=
  msg ++ 128 :: List.replicate ((119 - msg.length % 64) % 64) 0 ++
    beBytes 8 (8 * msg.length)

/-- SHA-1 digest of a byte list, as a list of 20 bytes. -/
def sha1 (msg : List Nat) : List Nat :=
  let (h0, h1, h2, h3, h4) := (blocks16 (toWords (sha1Pad msg))).foldl sha1Block
    (1732584193, 4023233417, 2562383102, 271733878, 3285377520)
  beBytes 4 h0 ++ beBytes 4 h1 ++ beBytes 4 h2 ++ beBytes 4 h3 ++ beBytes 4 h4

/-- Lowercase hex digit for a value below 16. -/
def hexDigit (n : Nat) : Char := "0123456789abcdef".data.getD n '0'

/-- Two lowercase hex digits of one byte, as printed by the 02x format. -/
def byteHex (b : Nat) : List Char := [hexDigit (b / 16 % 16), hexDigit (b % 16)]

/-- Lowercase hex string of a byte list. -/
def hexOfBytes (bs : List Nat) : Str := bs.flatMap byteHex

/-- UTF-8 bytes of one character. -/
def utf8Char (c : Char) : List Nat :=
  let n := c.toNat
  if n < 128 then [n]
  else if n < 2048 then [192 + n / 64, 128 + n % 64]
  else if n < 65536 then [224 + n / 4096, 128 + n / 64 % 64, 128 + n % 64]
  else [240 + n / 262144, 128 + n / 4096 % 64, 128 + n / 64 % 64, 128 + n % 64]

/-- UTF-8 bytes of a string, as the Rust as_bytes view of a str. -/
def utf8 (s : Str) : List Nat := s.flatMap utf8Char

/-- Embeds source_code_hash: one SHA-1 context updated with the
filename bytes and then the source bytes, printed as lowercase hex. -/
def source_code_hash (filename source_code : Str) : Str :=
  hexOfBytes (sha1 (utf8 filename ++ utf8 source_code))

example : source_code_hash "hello.ts".data "1+2".data =
    "a3e29aece8d35a19bf9da2bb1c086af71fb36ed5".data := by decide

/-! ## String and path helpers

Paths are posix strings; pathPush models PathBuf push of one relative
component: a separator is inserted exactly when the buffer is non-empty
and does not already end in one. -/

/-- True when pat occurs as a contiguous substring, as the Rust
str contains and replacen matching does. -/
def occurs (p : Str) : Str → Bool
  | [] => p.isPrefixOf []
  | c :: t => p.isPrefixOf (c :: t) || occurs p t

/-- Replace the first occurrence of pat, as the Rust replacen with
count one does; no occurrence leaves the string unchanged. -/
def replaceFirst (pat rep : Str) : Str → Str
  | [] => if pat.isPrefixOf ([] : Str) then rep else []
  | c :: t =>
    if pat.isPrefixOf (c :: t) then rep ++ (c :: t).drop pat.length
    else c :: replaceFirst pat rep t

/-- Split on the slash separator; the empty string gives one empty piece. -/
def splitSlash : Str → List Str
  | [] => [[]]
  | c :: t =>
    if c = '/' then [] :: splitSlash t
    else
      match splitSlash t with
      | [] => [[c]]
      | s :: rest => (c :: s) :: rest

/-- Join pieces with the slash separator. -/
def joinSlash : List Str → Str
  | [] => []
  | [s] => s
  | s :: rest => s ++ '/' :: joinSlash rest

/-- Decimal digits, recursion on a fuel bound so the definition
reduces structurally; the wrapper supplies enough fuel for any number. -/
def natStrAux : Nat → Nat → Str
  | 0, _ => []
  | fuel + 1, n =>
    if n < 10 then [hexDigit n]
    else natStrAux fuel (n / 10) ++ [hexDigit (n % 10)]

/-- Decimal digits of a number, as the Rust display format prints it. -/
def natStr (n : Nat) : Str := natStrAux (n + 1) n

/-- True when the last character is the separator. -/
def endsSlash : Str → Bool
  | [] => false
  | [c] => c == '/'
  | _ :: c :: t => endsSlash (c :: t)

/-- PathBuf push of one relative component: a separator is inserted
exactly when the buffer is non-empty and does not already end in one. -/
def pathPush (b s : Str) : Str :=
  if b.isEmpty || endsSlash b then b ++ s else b ++ '/' :: s

/-! ## The URL model and the path codec

URLs are modelled as the url crate presents them to this file: a file
URL carries its path segments; a remote URL carries scheme, host, the
port when it is explicit and not the scheme default (the port accessor
of the url crate yields nothing for a default port), and its path
segments.  Queries, fragments and userinfo do not arise for module
URLs and are not modelled. -/

inductive UrlM where
  | file (segs : List Str)
  | remote (scheme host : Str) (port : Option Nat) (segs : List Str)
deriving DecidableEq

/-- The host_PORTport directory name: a colon is not a legal filename
character on some platforms, so an explicit port is rendered with the
literal marker text. -/
def hostPortStr (host : Str) (port : Option Nat) : Str :=
  match port with
  | some p => host ++ "_PORT".data ++ natStr p
  | none => host

/-- Embeds get_cache_filename: basedir, then the host/port directory,
then one push per URL path segment.  The source unwraps the host of the
URL, so only remote URLs reach this function; resolve_module matches
the file scheme away before calling it, and the file case here is that
unreachable branch. -/
def get_cache_filename (basedir : Str) (u : UrlM) : Str :=
  match u with
  | .remote _ host port segs => segs.foldl pathPush (pathPush basedir (hostPortStr host port))
  | .file _ => basedir

/-- Embeds src_file_to_url: a filename under the deps directory is
mapped back to a URL string by stripping the deps prefix, rewriting the
first occurrence of the port marker to a colon, and prepending the
http scheme; any other filename is returned unchanged.  The
component-wise starts_with and strip_prefix of Rust paths are modelled
string-wise with an explicit separator. -/
def src_file_to_url (deps filename : Str) : Str :=
  if filename == deps || (deps ++ ['/']).isPrefixOf filename then
    "http://".data ++ replaceFirst "_PORT".data [':'] (filename.drop (deps.length + 1))
  else filename

/-- Canonical serialization of a URL, as the url crate to_string
renders the modelled URLs. -/
def toUrlString : UrlM → Str
  | .file segs => "file://".data ++ '/' :: joinSlash segs
  | .remote scheme host port segs =>
    scheme ++ "://".data ++ host ++
      (match port with | some p => ':' :: natStr p | none => []) ++
      '/' :: joinSlash segs

/-- The same URL with its scheme replaced by http, for the round-trip
statement: decode always re-synthesizes the http scheme. -/
def withHttpScheme : UrlM → UrlM
  | .file segs => .file segs
  | .remote _ host port segs => .remote "http".data host port segs

example :
    get_cache_filename "/cache/dir/".data
      (.remote "http".data "example.com".data (some 1234)
        ["path".data, "to".data, "file.ts".data]) =
    "/cache/dir/example.com_PORT1234/path/to/file.ts".data := by decide

example : src_file_to_url "/d".data "hello".data = "hello".data := by decide

example : src_file_to_url "/d".data "/d/hello/world.txt".data =
    "http://hello/world.txt".data := by decide

example : src_file_to_url "/d".data "/d/localhost_PORT4545/world.txt".data =
    "http://localhost:4545/world.txt".data := by decide

/-! ## Lemmas about the string helpers -/

theorem pfx_iff (p : Str) : ∀ l, p.isPrefixOf l = true ↔ ∃ t, l = p ++ t := by
  induction p with
  | nil => intro l; simp [List.isPrefixOf]
  | cons c ct ih =>
    intro l
    cases l with
    | nil => simp [List.isPrefixOf]
    | cons d lt =>
      simp only [List.isPrefixOf, Bool.and_eq_true, beq_iff_eq, ih lt,
        List.cons_append, List.cons.injEq]
      constructor
      · rintro ⟨h1, t, h2⟩; exact ⟨t, h1.symm, h2⟩
      · rintro ⟨t, h1, h2⟩; exact ⟨h1.symm, t, h2⟩

theorem occurs_nil (p : Str) : occurs p [] = p.isPrefixOf [] := rfl

theorem occurs_cons (p : Str) (c : Char) (t : Str) :
    occurs p (c :: t) = (p.isPrefixOf (c :: t) || occurs p t) := rfl

/-- An occurrence after any lead-in makes occurs true. -/
theorem occurs_append_of_isPrefixOf (p : Str) :
    ∀ t s, p.isPrefixOf s = true → occurs p (t ++ s) = true := by
  intro t
  induction t with
  | nil =>
    intro s hp
    cases s with
    | nil => simpa [occurs_nil] using hp
    | cons c t' => simp [occurs_cons, hp]
  | cons d t' ih =>
    intro s hp
    simp [occurs_cons, ih s hp]

/-- With no occurrence, replaceFirst is the identity. -/
theorem replaceFirst_of_no_occurrence (p r : Str) :
    ∀ l, occurs p l = false → replaceFirst p r l = l := by
  intro l
  induction l with
  | nil =>
    intro h
    simp only [occurs_nil] at h
    simp [replaceFirst, h]
  | cons c t ih =>
    intro h
    simp only [occurs_cons, Bool.or_eq_false_iff] at h
    simp [replaceFirst, h.1, ih h.2]

theorem replaceFirst_cons (pat rep : Str) (c : Char) (t : Str) :
    replaceFirst pat rep (c :: t) =
      if pat.isPrefixOf (c :: t) then rep ++ (c :: t).drop pat.length
      else c :: replaceFirst pat rep t := rfl

/-- replaceFirst rewrites the occurrence at the first position where the
pattern matches: when no earlier position matches, the occurrence after
the lead-in a is the one replaced. -/
theorem replaceFirst_at (p r b : Str) :
    ∀ a, (∀ t s, a = t ++ s → s ≠ [] → p.isPrefixOf (s ++ p ++ b) = false) →
      replaceFirst p r (a ++ p ++ b) = a ++ r ++ b := by
  intro a
  induction a with
  | nil =>
    intro _
    cases p with
    | nil =>
      cases b with
      | nil => simp [replaceFirst, List.isPrefixOf]
      | cons c t => simp [replaceFirst, List.isPrefixOf]
    | cons q qt =>
      have hpfx : (q :: qt).isPrefixOf (q :: (qt ++ b)) = true :=
        (pfx_iff _ _).mpr ⟨b, rfl⟩
      show replaceFirst (q :: qt) r (q :: (qt ++ b)) = [] ++ r ++ b
      rw [replaceFirst_cons, if_pos hpfx]
      show r ++ ((q :: qt) ++ b).drop (q :: qt).length = [] ++ r ++ b
      rw [List.drop_left]
      simp
  | cons c a' ih =>
    intro h
    have hhead : p.isPrefixOf (c :: (a' ++ p ++ b)) = false := by
      have := h [] (c :: a') rfl (by simp)
      simpa using this
    have hneg : ¬ (p.isPrefixOf (c :: (a' ++ p ++ b)) = true) := by
      rw [hhead]; simp
    have hrec := ih (fun t s hts hsne => h (c :: t) s (by simp [hts]) hsne)
    show replaceFirst p r (c :: (a' ++ p ++ b)) = c :: (a' ++ r ++ b)
    rw [replaceFirst_cons, if_neg hneg]
    show c :: replaceFirst p r (a' ++ p ++ b) = c :: (a' ++ r ++ b)
    rw [hrec]

theorem endsSlash_append (c : Char) (t : Str) :
    ∀ a, endsSlash (a ++ c :: t) = endsSlash (c :: t) := by
  intro a
  induction a with
  | nil => rfl
  | cons d a' ih =>
    cases a' with
    | nil => cases t <;> rfl
    | cons e a'' => simpa using ih

theorem endsSlash_of_no_slash :
    ∀ l, (∀ c ∈ l, c ≠ '/') → endsSlash l = false := by
  intro l
  induction l with
  | nil => intro _; rfl
  | cons c t ih =>
    intro h
    cases t with
    | nil => simpa [endsSlash] using h c (by simp)
    | cons d t' =>
      have : endsSlash (c :: d :: t') = endsSlash (d :: t') := rfl
      rw [this]
      exact ih fun x hx => h x (by simp [hx])

theorem hexDigit_mem_digits {n : Nat} (h : n < 10) :
    hexDigit n ∈ "0123456789".data := by
  interval_cases n <;> decide

theorem natStrAux_digits :
    ∀ fuel n, ∀ c ∈ natStrAux fuel n, c ∈ "0123456789".data := by
  intro fuel
  induction fuel with
  | zero => intro n c hc; simp [natStrAux] at hc
  | succ f ih =>
    intro n c hc
    by_cases h : n < 10
    · simp only [natStrAux, if_pos h, List.mem_singleton] at hc
      subst hc
      exact hexDigit_mem_digits h
    · simp only [natStrAux, if_neg h, List.mem_append, List.mem_singleton] at hc
      rcases hc with hc | hc
      · exact ih _ c hc
      · subst hc
        exact hexDigit_mem_digits (Nat.mod_lt _ (by omega))

theorem natStr_digits : ∀ n, ∀ c ∈ natStr n, c ∈ "0123456789".data :=
  fun n => natStrAux_digits (n + 1) n

theorem natStr_ne_nil (n : Nat) : natStr n ≠ [] := by
  unfold natStr natStrAux
  by_cases h : n < 10 <;> simp [h]

theorem digit_ne_slash : ∀ c ∈ "0123456789".data, c ≠ '/' := by decide

/-- Pushing non-empty separator-free segments appends them with
separators. -/
theorem foldl_pathPush (segs : List Str) :
    ∀ acc, acc ≠ [] → endsSlash acc = false → segs ≠ [] →
      (∀ s ∈ segs, s ≠ [] ∧ ∀ c ∈ s, c ≠ '/') →
      segs.foldl pathPush acc = acc ++ '/' :: joinSlash segs := by
  induction segs with
  | nil => intro acc _ _ hne _; exact absurd rfl hne
  | cons s rest ih =>
    intro acc hacc hsl _ hall
    have hs := hall s (by simp)
    have hpush : pathPush acc s = acc ++ '/' :: s := by
      unfold pathPush
      rw [if_neg]
      simp [List.isEmpty_iff, hacc, hsl]
    cases rest with
    | nil => simp [hpush, joinSlash]
    | cons s' rest' =>
      obtain ⟨c, t, hct⟩ := List.exists_cons_of_ne_nil hs.1
      have hacc' : acc ++ '/' :: s ≠ [] := by simp
      have hsl' : endsSlash (acc ++ '/' :: s) = false := by
        rw [endsSlash_append]
        subst hct
        have : endsSlash ('/' :: c :: t) = endsSlash (c :: t) := rfl
        rw [this]
        exact endsSlash_of_no_slash _ hs.2
      have := ih (acc ++ '/' :: s) hacc' hsl' (by simp)
        (fun x hx => hall x (by simp [hx]))
      simp only [List.foldl_cons, hpush, this, joinSlash, List.append_assoc,
        List.cons_append]

/-- No occurrence of the port marker can start strictly inside the
host part of a host-marker-rest string: the marker has no border, and
the host itself is occurrence-free. -/
theorem no_early_marker (host b : Str) (hocc : occurs "_PORT".data host = false) :
    ∀ t s, host = t ++ s → s ≠ [] →
      ("_PORT".data).isPrefixOf (s ++ "_PORT".data ++ b) = false := by
  intro t s hts hsne
  by_contra hcon
  rw [Bool.not_eq_false] at hcon
  match s, hsne with
  | [], h => exact absurd rfl h
  | [c1], _ =>
    simp [List.isPrefixOf, show "_PORT".data = ['_', 'P', 'O', 'R', 'T'] from rfl,
      Bool.and_eq_true, beq_iff_eq] at hcon
  | [c1, c2], _ =>
    simp [List.isPrefixOf, show "_PORT".data = ['_', 'P', 'O', 'R', 'T'] from rfl,
      Bool.and_eq_true, beq_iff_eq] at hcon
  | [c1, c2, c3], _ =>
    simp [List.isPrefixOf, show "_PORT".data = ['_', 'P', 'O', 'R', 'T'] from rfl,
      Bool.and_eq_true, beq_iff_eq] at hcon
  | [c1, c2, c3, c4], _ =>
    simp [List.isPrefixOf, show "_PORT".data = ['_', 'P', 'O', 'R', 'T'] from rfl,
      Bool.and_eq_true, beq_iff_eq] at hcon
  | c1 :: c2 :: c3 :: c4 :: c5 :: s5, _ =>
    simp only [show "_PORT".data = ['_', 'P', 'O', 'R', 'T'] from rfl,
      List.cons_append, List.isPrefixOf, Bool.and_eq_true, beq_iff_eq,
      List.nil_append] at hcon
    obtain ⟨h1, h2, h3, h4, h5, _⟩ := hcon
    have hpfx : ("_PORT".data).isPrefixOf (c1 :: c2 :: c3 :: c4 :: c5 :: s5) = true := by
      subst h1 h2 h3 h4 h5
      exact (pfx_iff _ _).mpr ⟨s5, rfl⟩
    have := occurs_append_of_isPrefixOf "_PORT".data t _ hpfx
    rw [← hts] at this
    rw [this] at hocc
    exact Bool.true_eq_false.mp hocc

/-- A separator-free pattern is a prefix across a separator only if it
is a prefix of the part before the separator. -/
theorem isPrefixOf_append_slash (y : Str) :
    ∀ (x p : Str), (∀ c ∈ p, c ≠ '/') →
      p.isPrefixOf (x ++ '/' :: y) = p.isPrefixOf x := by
  intro x
  induction x with
  | nil =>
    intro p hp
    cases p with
    | nil => rfl
    | cons c ct =>
      have : (c == '/') = false := by
        simp [hp c (by simp)]
      simp [List.isPrefixOf, this]
  | cons d xt ih =>
    intro p hp
    cases p with
    | nil => rfl
    | cons c ct =>
      have hct := ih ct fun x hx => hp x (by simp [hx])
      show (c == d && ct.isPrefixOf (xt ++ '/' :: y)) = (c == d && ct.isPrefixOf xt)
      rw [hct]

/-- Occurrence in a separated concatenation splits into occurrence in
either part, for a separator-free pattern. -/
theorem occurs_append_slash (p y : Str) (hp : ∀ c ∈ p, c ≠ '/') :
    ∀ x, occurs p (x ++ '/' :: y) = (occurs p x || occurs p y) := by
  intro x
  induction x with
  | nil =>
    simp only [List.nil_append, occurs_cons, occurs_nil]
    rw [show p.isPrefixOf ('/' :: y) = p.isPrefixOf ([] ++ '/' :: y) from rfl,
      isPrefixOf_append_slash y [] p hp]
  | cons c t ih =>
    simp only [List.cons_append, occurs_cons, ih, ← Bool.or_assoc]
    rw [show (c :: (t ++ '/' :: y)) = ((c :: t) ++ '/' :: y) from rfl,
      isPrefixOf_append_slash y (c :: t) p hp]

/-- Decoding an encoded path under the deps root strips the root and
the separator. -/
theorem src_file_to_url_under_deps (deps X : Str) :
    src_file_to_url deps (deps ++ '/' :: X) =
      "http://".data ++ replaceFirst "_PORT".data [':'] X := by
  unfold src_file_to_url
  have hpfx : (deps ++ ['/']).isPrefixOf (deps ++ '/' :: X) = true :=
    (pfx_iff _ _).mpr ⟨X, by simp⟩
  have hcond : ((deps ++ '/' :: X) == deps || (deps ++ ['/']).isPrefixOf (deps ++ '/' :: X)) = true := by
    rw [hpfx, Bool.or_true]
  rw [if_pos hcond]
  have hre : deps ++ '/' :: X = (deps ++ ['/']) ++ X := by simp
  rw [hre, show deps.length + 1 = (deps ++ ['/']).length by simp, List.drop_left]

/-- No occurrence in a slash-join of occurrence-free segments. -/
theorem occurs_joinSlash (p : Str) (hne : p ≠ []) (hp : ∀ c ∈ p, c ≠ '/') :
    ∀ segs, (∀ s ∈ segs, occurs p s = false) →
      occurs p (joinSlash segs) = false := by
  intro segs
  induction segs with
  | nil =>
    intro _
    obtain ⟨c, t, rfl⟩ := List.exists_cons_of_ne_nil hne
    rfl
  | cons s rest ih =>
    intro hall
    cases rest with
    | nil => exact hall s (by simp)
    | cons s' rest' =>
      have : joinSlash (s :: s' :: rest') = s ++ '/' :: joinSlash (s' :: rest') := rfl
      rw [this, occurs_append_slash p _ hp, hall s (by simp),
        ih fun x hx => hall x (by simp [hx])]
      rfl

/-! ## Claim C1: the path codec round trip -/

/-- The encoded cache filename of a remote URL lays out as root,
separator, host-port directory, separator, joined segments. -/
theorem get_cache_filename_eq (deps sch host : Str) (port : Option Nat)
    (segs : List Str)
    (hd1 : deps ≠ []) (hd2 : endsSlash deps = false)
    (hh1 : host ≠ []) (hh2 : ∀ c ∈ host, c ≠ '/')
    (hdig : ∀ p c, port = some p → c ∈ natStr p → c ≠ '/')
    (hs1 : segs ≠ [])
    (hsegs : ∀ s ∈ segs, s ≠ [] ∧ ∀ c ∈ s, c ≠ '/') :
    get_cache_filename deps (.remote sch host port segs) =
      deps ++ '/' :: (hostPortStr host port ++ '/' :: joinSlash segs) := by
  have hp0ne : hostPortStr host port ≠ [] := by
    cases port <;> simp [hostPortStr, hh1]
  have hp0slash : ∀ c ∈ hostPortStr host port, c ≠ '/' := by
    cases port with
    | none => exact hh2
    | some p =>
      intro c hc
      simp only [hostPortStr, List.append_assoc, List.mem_append] at hc
      rcases hc with hc | hc | hc
      · exact hh2 c hc
      · simp only [show "_PORT".data = ['_', 'P', 'O', 'R', 'T'] from rfl,
          List.mem_cons, List.not_mem_nil, or_false] at hc
        rcases hc with rfl | rfl | rfl | rfl | rfl <;> decide
      · exact hdig p c rfl hc
  show segs.foldl pathPush (pathPush deps (hostPortStr host port)) = _
  have hpushd : pathPush deps (hostPortStr host port) =
      deps ++ '/' :: hostPortStr host port := by
    unfold pathPush
    rw [if_neg (by simp [List.isEmpty_iff, hd1, hd2])]
  rw [hpushd]
  have hacc_ne : deps ++ '/' :: hostPortStr host port ≠ [] := by simp
  have hacc_sl : endsSlash (deps ++ '/' :: hostPortStr host port) = false := by
    rw [endsSlash_append]
    obtain ⟨c, t, hct⟩ := List.exists_cons_of_ne_nil hp0ne
    rw [hct]
    have hstep : endsSlash ('/' :: c :: t) = endsSlash (c :: t) := rfl
    rw [hstep]
    exact endsSlash_of_no_slash _ fun x hx => hp0slash x (by rw [hct]; exact hx)
  rw [foldl_pathPush segs _ hacc_ne hacc_sl hs1 hsegs]
  simp

/-- C1, amended: decoding the encoded cache path of a remote URL whose
host, port digits and path segments are free of the port marker, and
whose path segments are all non-empty, recovers the canonical URL
string with the scheme replaced by http. -/
theorem codec_roundtrip (deps sch host : Str) (port : Option Nat)
    (segs : List Str)
    (hd1 : deps ≠ []) (hd2 : endsSlash deps = false)
    (hh1 : host ≠ []) (hh2 : ∀ c ∈ host, c ≠ '/')
    (hhm : occurs "_PORT".data host = false)
    (hs1 : segs ≠ [])
    (hsegs : ∀ s ∈ segs, s ≠ [] ∧ (∀ c ∈ s, c ≠ '/') ∧
      occurs "_PORT".data s = false) :
    src_file_to_url deps (get_cache_filename deps (.remote sch host port segs)) =
      toUrlString (withHttpScheme (.remote sch host port segs)) := by
  have hpm_slash : ∀ c ∈ "_PORT".data, c ≠ '/' := by decide
  have hpm_ne : "_PORT".data ≠ [] := by decide
  rw [get_cache_filename_eq deps sch host port segs hd1 hd2 hh1 hh2
    (fun p c _ hc => digit_ne_slash c (natStr_digits p c hc)) hs1
    (fun s hs => ⟨(hsegs s hs).1, (hsegs s hs).2.1⟩)]
  rw [src_file_to_url_under_deps]
  cases port with
  | none =>
    have hocc : occurs "_PORT".data (host ++ '/' :: joinSlash segs) = false := by
      rw [occurs_append_slash _ _ hpm_slash, hhm,
        occurs_joinSlash _ hpm_ne hpm_slash segs fun s hs => (hsegs s hs).2.2]
      rfl
    rw [show hostPortStr host none = host from rfl,
      replaceFirst_of_no_occurrence _ _ _ hocc]
    show "http://".data ++ (host ++ '/' :: joinSlash segs) =
      "http".data ++ "://".data ++ host ++ [] ++ '/' :: joinSlash segs
    simp
  | some p =>
    have hb := replaceFirst_at "_PORT".data [':']
      (natStr p ++ '/' :: joinSlash segs) host
      (no_early_marker host (natStr p ++ '/' :: joinSlash segs) hhm)
    have hX : hostPortStr host (some p) ++ '/' :: joinSlash segs =
        host ++ "_PORT".data ++ (natStr p ++ '/' :: joinSlash segs) := by
      show (host ++ "_PORT".data ++ natStr p) ++ '/' :: joinSlash segs = _
      simp
    rw [hX, hb]
    show "http://".data ++ (host ++ [':'] ++ (natStr p ++ '/' :: joinSlash segs)) =
      "http".data ++ "://".data ++ host ++ ':' :: natStr p ++ '/' :: joinSlash segs
    simp

/-- Witness for the amended round trip at the URL of the source's own
cache-filename test, scheme https, host example.com, port 1234,
segments path, to, file.ts, deps root /cache/deps. -/
theorem codec_roundtrip_witness :
    ("/cache/deps".data ≠ [] ∧ endsSlash "/cache/deps".data = false ∧
      "example.com".data ≠ [] ∧ (∀ c ∈ "example.com".data, c ≠ '/') ∧
      occurs "_PORT".data "example.com".data = false ∧
      (["path".data, "to".data, "file.ts".data] : List Str) ≠ [] ∧
      (∀ s ∈ (["path".data, "to".data, "file.ts".data] : List Str),
        s ≠ [] ∧ (∀ c ∈ s, c ≠ '/') ∧ occurs "_PORT".data s = false)) ∧
    src_file_to_url "/cache/deps".data
      (get_cache_filename "/cache/deps".data
        (.remote "https".data "example.com".data (some 1234)
          ["path".data, "to".data, "file.ts".data])) =
      toUrlString (withHttpScheme
        (.remote "https".data "example.com".data (some 1234)
          ["path".data, "to".data, "file.ts".data])) :=
  ⟨⟨by decide, by decide, by decide, by decide, by decide, by decide, by decide⟩,
    codec_roundtrip "/cache/deps".data "https".data "example.com".data
      (some 1234) ["path".data, "to".data, "file.ts".data]
      (by decide) (by decide) (by decide) (by decide) (by decide) (by decide)
      (by decide)⟩

/-- Counterexample to C1 as stated: the URL with host h and path
segments a, empty, b contains no port marker anywhere, yet its encoded
path collapses the empty segment, so decoding yields a different
canonical string. -/
theorem codec_roundtrip_cex :
    src_file_to_url "/d".data
      (get_cache_filename "/d".data
        (.remote "http".data "h".data none ["a".data, "".data, "b".data])) =
      "http://h/a/b".data ∧
    toUrlString (withHttpScheme
      (.remote "http".data "h".data none ["a".data, "".data, "b".data])) =
      "http://h/a//b".data ∧
    src_file_to_url "/d".data
      (get_cache_filename "/d".data
        (.remote "http".data "h".data none ["a".data, "".data, "b".data])) ≠
      toUrlString (withHttpScheme
        (.remote "http".data "h".data none ["a".data, "".data, "b".data])) :=
  ⟨by decide, by decide, by decide⟩

/-! ## URL parsing, joining, and file-path conversion

Models of the url crate operations that resolve_module consumes, at
their documented interface: hierarchical scheme://host[:port]/path
URLs and posix file paths.  Strings that parse as neither (opaque
cannot-be-a-base URLs, for instance) are modelled as parse failures;
no claim depends on such inputs. -/

/-- Embeds is_remote: a literal string-prefix test, not scheme parsing. -/
def is_remote (module_name : Str) : Bool := "http".data.isPrefixOf module_name

/-- True when the path is posix absolute. -/
def isAbsolute : Str → Bool
  | [] => false
  | c :: _ => c == '/'

/-- Scheme splitter: consumes scheme characters up to a colon followed
by two slashes; anything else is not a hierarchical URL here. -/
def splitSchemeAux : Str → Str → Option (Str × Str)
  | acc, ':' :: '/' :: '/' :: rest => some (acc.reverse, rest)
  | acc, c :: t =>
    if c.isAlpha || c.isDigit || c = '+' || c = '-' || c = '.' then
      splitSchemeAux (c :: acc) t
    else none
  | _, [] => none

/-- Decimal value of a digit string. -/
def digitsToNat (l : Str) : Nat := l.foldl (fun a c => a * 10 + (c.toNat - 48)) 0

/-- Split an authority into host and optional explicit port. -/
def parseAuth (auth : Str) : Option (Str × Option Nat) :=
  let host := auth.takeWhile (· ≠ ':')
  match host, auth.dropWhile (· ≠ ':') with
  | [], _ => none
  | h, [] => some (h, none)
  | h, _ :: digits =>
    if digits ≠ [] && digits.all (·.isDigit) then
      some (h, some (digitsToNat digits))
    else none

/-- A port equal to the scheme default is dropped, as the url crate
port accessor reports no port for a default port. -/
def normPort (scheme : Str) (port : Option Nat) : Option Nat :=
  match port with
  | some 80 => if scheme = "http".data then none else some 80
  | some 443 => if scheme = "https".data then none else some 443
  | p => p

/-- Model of Url parse restricted to hierarchical URLs: a valid scheme,
two slashes, host, optional explicit port, slash-separated path. -/
def parseUrl (s : Str) : Option UrlM :=
  match splitSchemeAux [] s with
  | none => none
  | some (scheme, rest) =>
    match scheme with
    | [] => none
    | c :: _ =>
      if c.isAlpha then
        match parseAuth (rest.takeWhile (· ≠ '/')) with
        | none => none
        | some (host, port) =>
          let segs :=
            match rest.dropWhile (· ≠ '/') with
            | [] => [([] : Str)]
            | _ :: p => splitSlash p
          some (.remote scheme host (normPort scheme port) segs)
      else none

/-- Model of Url from_file_path: absolute paths only. -/
def from_file_path (p : Str) : Option UrlM :=
  match p with
  | '/' :: t => some (.file (splitSlash t))
  | _ => none

/-- Model of Url from_directory_path: absolute paths only, and the URL
path is given directory form with a trailing empty segment. -/
def from_directory_path (p : Str) : Option UrlM :=
  match p with
  | '/' :: t =>
    let segs := splitSlash t
    some (.file (if segs.getLast? = some [] then segs else segs ++ [[]]))
  | _ => none

/-- Model of Url to_file_path: only file URLs convert. -/
def to_file_path : UrlM → Option Str
  | .file segs => some ('/' :: joinSlash segs)
  | .remote _ _ _ _ => none

/-- Dot-segment removal of the RFC 3986 merge: single dots vanish,
double dots pop, and a trailing dot form leaves directory form. -/
def removeDotsAux (acc : List Str) : List Str → List Str
  | [] => acc.reverse
  | [d] =>
    if d = ['.'] then acc.reverse ++ [[]]
    else if d = ['.', '.'] then (acc.drop 1).reverse ++ [[]]
    else acc.reverse ++ [d]
  | d :: rest =>
    if d = ['.'] then removeDotsAux acc rest
    else if d = ['.', '.'] then removeDotsAux (acc.drop 1) rest
    else removeDotsAux (d :: acc) rest

/-- Merge a relative reference into base path segments: an absolute
reference replaces the path, otherwise the last base segment is
dropped and the reference segments are appended, dots removed. -/
def joinSegs (baseSegs : List Str) (ref : Str) : List Str :=
  match ref with
  | '/' :: t => removeDotsAux [] (splitSlash t)
  | _ => removeDotsAux [] (baseSegs.dropLast ++ splitSlash ref)

/-- Model of Url join: a reference that parses as an absolute URL wins;
otherwise it is resolved relative to the base, which keeps its scheme,
host and port. -/
def joinUrl (base : UrlM) (ref : Str) : Option UrlM :=
  match parseUrl ref with
  | some u => some u
  | none =>
    match base with
    | .file segs => some (.file (joinSegs segs ref))
    | .remote sch host port segs => some (.remote sch host port (joinSegs segs ref))

/-- Modelled from the spec: normalize_path comes from the repository's
fs module, which is outside this source file; the spec states it
resolves single and double dot segments and collapses separators.
Absolute posix paths, as the resolver produces them. -/
def normSegsAux (acc : List Str) : List Str → List Str
  | [] => acc.reverse
  | s :: rest =>
    if s = [] || s = ['.'] then normSegsAux acc rest
    else if s = ['.', '.'] then normSegsAux (acc.drop 1) rest
    else normSegsAux (s :: acc) rest

/-- Modelled from the spec: dot resolution and separator collapsing on
an absolute path; other strings are returned unchanged. -/
def normalize_path (p : Str) : Str :=
  match p with
  | '/' :: t => '/' :: joinSlash (normSegsAux [] (splitSlash t))
  | _ => p

/-! ## resolve_module -/

/-- Resolution outcome: success, a url parse error, or a panic of the
Rust process (an unwrap of a failed conversion). -/
inductive RRes where
  | ok (module_name filename : Str)
  | parseErr
  | panicked
deriving DecidableEq

/-- Embeds parse_local_or_remote: a remote-looking string is parsed as
a URL, anything else must convert from an absolute file path. -/
def parse_local_or_remote (p : Str) : Option UrlM :=
  if is_remote p then parseUrl p else from_file_path p

/-- The final match of resolve_module on the scheme of the resolved
URL: a file URL yields the normalized local path as both module name
and filename (the unwrap of to_file_path cannot fail on a file URL);
a remote URL yields its canonical string and the normalized cache
filename under the deps root. -/
def resolveFinish (deps : Str) (j : UrlM) : RRes :=
  match j with
  | .file segs =>
    match to_file_path (.file segs) with
    | some fp =>
      let p := normalize_path fp
      .ok p p
    | none => .panicked
  | .remote sch host port segs =>
    .ok (toUrlString (.remote sch host port segs))
      (normalize_path (get_cache_filename deps (.remote sch host port segs)))

/-- Embeds resolve_module: both inputs are first decoded by
src_file_to_url; a dot containing file, a remote-looking specifier, or
an absolute specifier is parsed alone; otherwise the specifier is
joined onto the containing file as a directory base (whose failed
conversion the source unwraps: a panic) or as a file base. -/
def resolve_module (deps ms cf : Str) : RRes :=
  let ms' := src_file_to_url deps ms
  let cf' := src_file_to_url deps cf
  if cf' == ['.'] || is_remote ms' || isAbsolute ms' then
    match parse_local_or_remote ms' with
    | none => .parseErr
    | some j => resolveFinish deps j
  else if endsSlash cf' then
    match from_directory_path cf' with
    | none => .panicked
    | some base =>
      match joinUrl base ms' with
      | none => .parseErr
      | some j => resolveFinish deps j
  else
    match parse_local_or_remote cf' with
    | none => .parseErr
    | some base =>
      match joinUrl base ms' with
      | none => .parseErr
      | some j => resolveFinish deps j

example : resolve_module "/r/deps".data "./subdir/print_hello.ts".data
    "/u/deno/testdata/006_url_imports.ts".data =
    .ok "/u/deno/testdata/subdir/print_hello.ts".data
      "/u/deno/testdata/subdir/print_hello.ts".data := by decide

example : resolve_module "/r/deps".data "testdata/001_hello.js".data
    "/u/deno/".data =
    .ok "/u/deno/testdata/001_hello.js".data
      "/u/deno/testdata/001_hello.js".data := by decide

example : resolve_module "/r/deps".data "/u/hello.js".data ".".data =
    .ok "/u/hello.js".data "/u/hello.js".data := by decide

example : resolve_module "/r/deps".data
    "http://localhost:4545/tests/subdir/mod2.ts".data
    "/deno/tests/006_url_imports.ts".data =
    .ok "http://localhost:4545/tests/subdir/mod2.ts".data
      "/r/deps/localhost_PORT4545/tests/subdir/mod2.ts".data := by decide

example : resolve_module "/r/deps".data "./util".data
    "/r/deps/unpkg.com/liltest@0.0.5/index.ts".data =
    .ok "http://unpkg.com/liltest@0.0.5/util".data
      "/r/deps/unpkg.com/liltest@0.0.5/util".data := by decide

/-! ## Claims C2 and C3: totality of resolution and the local identity -/

theorem splitSlash_ne_nil : ∀ x, splitSlash x ≠ [] := by
  intro x
  cases x with
  | nil => simp [splitSlash]
  | cons c t =>
    simp only [splitSlash]
    split
    · simp
    · split <;> simp

theorem splitSlash_cons (c : Char) (t : Str) :
    splitSlash (c :: t) =
      if c = '/' then [] :: splitSlash t
      else
        match splitSlash t with
        | [] => [[c]]
        | s :: rest => (c :: s) :: rest := rfl

theorem joinSlash_splitSlash : ∀ x, joinSlash (splitSlash x) = x := by
  intro x
  induction x with
  | nil => rfl
  | cons c t ih =>
    obtain ⟨s, rest, hsr⟩ := List.exists_cons_of_ne_nil (splitSlash_ne_nil t)
    by_cases hc : c = '/'
    · subst hc
      rw [splitSlash_cons, if_pos rfl, hsr]
      have hjs : joinSlash ([] :: s :: rest) = '/' :: joinSlash (s :: rest) := rfl
      rw [hjs, ← hsr, ih]
    · rw [splitSlash_cons, if_neg hc, hsr]
      rw [hsr] at ih
      cases rest with
      | nil =>
        have ih' : s = t := ih
        show c :: s = c :: t
        rw [ih']
      | cons r rest' =>
        have ih' : s ++ '/' :: joinSlash (r :: rest') = t := ih
        show c :: (s ++ '/' :: joinSlash (r :: rest')) = c :: t
        rw [ih']

theorem isAbsolute_exists {l : Str} (h : isAbsolute l = true) :
    ∃ t, l = '/' :: t := by
  cases l with
  | nil => simp [isAbsolute] at h
  | cons c t =>
    simp only [isAbsolute, beq_iff_eq] at h
    exact ⟨t, by rw [h]⟩

/-- A filename that is neither the deps root nor under it decodes to
itself. -/
theorem src_file_to_url_id (deps p : Str) (hne : p ≠ deps)
    (hnu : (deps ++ ['/']).isPrefixOf p = false) :
    src_file_to_url deps p = p := by
  have hcond : (p == deps || (deps ++ ['/']).isPrefixOf p) = false := by
    rw [hnu, Bool.or_false, beq_eq_false_iff_ne]
    exact hne
  unfold src_file_to_url
  rw [if_neg (by rw [hcond]; simp)]

/-- C2: the spec says a malformed or non-absolute base yields the error
value, but the source unwraps the failed directory-base conversion: a
relative containing file ending in a separator makes resolve_module
panic instead of returning a url parse error. -/
theorem resolve_module_panic_on_relative_dir_base :
    resolve_module "/r/deps".data "a".data "foo/".data = RRes.panicked := by
  decide

/-- C3, amended: an absolute local path that is not the deps root and
not under it resolves against the dot containing file to itself,
normalized, as both module name and filename. -/
theorem resolve_local_identity (deps p : Str)
    (hdeps : isAbsolute deps = true) (habs : isAbsolute p = true)
    (hne : p ≠ deps) (hnu : (deps ++ ['/']).isPrefixOf p = false) :
    resolve_module deps p ['.'] =
      .ok (normalize_path p) (normalize_path p) := by
  obtain ⟨dt, rfl⟩ := isAbsolute_exists hdeps
  obtain ⟨pt, rfl⟩ := isAbsolute_exists habs
  have hms : src_file_to_url ('/' :: dt) ('/' :: pt) = '/' :: pt :=
    src_file_to_url_id _ _ hne hnu
  have hdot_ne : (['.'] : Str) ≠ '/' :: dt := by simp
  have hdot_nu : (('/' :: dt) ++ ['/']).isPrefixOf ['.'] = false := by
    simp [List.isPrefixOf]
  have hcf : src_file_to_url ('/' :: dt) ['.'] = ['.'] :=
    src_file_to_url_id _ _ hdot_ne hdot_nu
  have hrem : is_remote ('/' :: pt) = false := by
    simp [is_remote, List.isPrefixOf]
  simp only [resolve_module, hms, hcf]
  have hcond : ((['.'] : Str) == ['.'] || is_remote ('/' :: pt) ||
      isAbsolute ('/' :: pt)) = true := by simp
  rw [if_pos hcond]
  simp [parse_local_or_remote, hrem, from_file_path, resolveFinish,
    to_file_path, joinSlash_splitSlash]

/-- Witness for the amended local identity at deps root /d and path
/a/subdir/b.ts. -/
theorem resolve_local_identity_witness :
    (isAbsolute "/d".data = true ∧ isAbsolute "/a/subdir/b.ts".data = true ∧
      "/a/subdir/b.ts".data ≠ "/d".data ∧
      ("/d".data ++ ['/']).isPrefixOf "/a/subdir/b.ts".data = false) ∧
    resolve_module "/d".data "/a/subdir/b.ts".data ['.'] =
      .ok (normalize_path "/a/subdir/b.ts".data)
        (normalize_path "/a/subdir/b.ts".data) :=
  ⟨⟨by decide, by decide, by decide, by decide⟩,
    resolve_local_identity "/d".data "/a/subdir/b.ts".data
      (by decide) (by decide) (by decide) (by decide)⟩

/-- Counterexample to C3 as stated: an absolute local path under the
deps directory does not resolve to itself; it is decoded to a remote
identity, so the module name is the URL string, not the path. -/
theorem resolve_local_identity_cex :
    resolve_module "/d".data "/d/unpkg.com/liltest/index.ts".data ['.'] =
      .ok "http://unpkg.com/liltest/index.ts".data
        "/d/unpkg.com/liltest/index.ts".data ∧
    "http://unpkg.com/liltest/index.ts".data ≠
      normalize_path "/d/unpkg.com/liltest/index.ts".data :=
  ⟨by decide, by decide⟩

/-! ## The effectful layer: filesystem, network, and the orchestrator

Effects are embedded by explicit state passing over a World record.
Reads distinguish a missing file (the not-found error kind the source
branches on) from a present but unreadable one (any other io error).
The remote server is an association from URL to body text; the fetch
primitive appends every invocation to a log, so a theorem can state
that no fetch occurred. -/

inductive FileE where
  | content (text : Str)
  | unreadable
deriving DecidableEq

inductive ErrKind where
  | notFound
  | urlParse
  | ioOther
  | fetchErr
deriving DecidableEq

structure DenoErr where
  kind : ErrKind
  msg : Str
deriving DecidableEq

structure World where
  files : List (Str × FileE)
  dirs : List Str
  fetchLog : List Str
  remote : List (Str × Str)
deriving DecidableEq

/-- The deps and gen roots and the reload flag of the DenoDir record;
the home-directory setup of the constructor is not needed by the
claims. -/
structure DenoDir where
  gen : Str
  deps : Str
  reload : Bool
deriving DecidableEq

/-- Outcome of an effectful operation: value, error, or process panic. -/
inductive Res (α : Type) where
  | ok (a : α)
  | err (e : DenoErr)
  | panicked
deriving DecidableEq

def assocFind {α : Type} : List (Str × α) → Str → Option α
  | [], _ => none
  | (k, v) :: rest, key => if k = key then some v else assocFind rest key

def setFile : List (Str × FileE) → Str → FileE → List (Str × FileE)
  | [], key, e => [(key, e)]
  | (k, v) :: rest, key, e =>
    if k = key then (key, e) :: rest else (k, v) :: setFile rest key e

/-- Embeds fs read_to_string on the world: a missing file is the
not-found error kind. -/
def readToString (w : World) (p : Str) : Except DenoErr Str :=
  match assocFind w.files p with
  | none => .error ⟨.notFound, p⟩
  | some .unreadable => .error ⟨.ioOther, p⟩
  | some (.content text) => .ok text

/-- The parent of a path: its components except the last, refused when
nothing remains, as the Path parent accessor is. -/
def parentOf (p : Str) : Option Str :=
  match (splitSlash p).dropLast with
  | [] => none
  | segs => some (joinSlash segs)

/-- All ancestor directories of a path, shortest first. -/
def dirPrefixes : List Str → List (List Str)
  | [] => []
  | s :: rest => [s] :: (dirPrefixes rest).map (s :: ·)

/-- The directories create_dir_all brings into existence. -/
def dirChain (d : Str) : List Str := (dirPrefixes (splitSlash d)).map joinSlash

/-- Embeds create_dir_all on the world: the directory and every
ancestor come to exist; the model write always succeeds. -/
def addDirAll (dirs : List Str) (d : Str) : List Str := dirChain d ++ dirs

/-- Embeds fetch_remote_source: with the reload flag, or with no file
at the cache filename, invoke the fetch primitive (logged), create the
missing parent directories, write the fetched text verbatim (the
write_file_sync of the repository fs module, modelled from the spec)
and return it; otherwise read and return the existing file. -/
def fetch_remote_source (d : DenoDir) (w : World) (module_name filename : Str) :
    World × Res Str :=
  if d.reload || (assocFind w.files filename).isNone then
    let w1 : World := { w with fetchLog := w.fetchLog ++ [module_name] }
    match assocFind w.remote module_name with
    | none => (w1, .err ⟨.fetchErr, module_name⟩)
    | some source =>
      let w2 : World :=
        match parentOf filename with
        | some par => { w1 with dirs := addDirAll w1.dirs par }
        | none => w1
      ({ w2 with files := setFile w2.files filename (.content source) }, .ok source)
  else
    match readToString w filename with
    | .ok s => (w, .ok s)
    | .error e => (w, .err e)

def ASSET_PREFIX : Str := "/$asset$/".data

/-- Embeds get_source_code: remote modules fetch through the cache; an
asset identity panics; a local module asserts name equals filename
(panic otherwise) and reads the file. -/
def get_source_code (d : DenoDir) (w : World) (module_name filename : Str) :
    World × Res Str :=
  if is_remote module_name then fetch_remote_source d w module_name filename
  else if ASSET_PREFIX.isPrefixOf module_name then (w, .panicked)
  else if module_name ≠ filename then (w, .panicked)
  else
    match readToString w filename with
    | .ok s => (w, .ok s)
    | .error e => (w, .err e)

/-- Embeds cache_path: the gen root joined with the content hash and
the js suffix. -/
def cache_path (d : DenoDir) (filename source_code : Str) : Str :=
  pathPush d.gen (source_code_hash filename source_code ++ ".js".data)

/-- Embeds load_cache: read the compiled-cache entry for the exact
filename and source pair. -/
def load_cache (d : DenoDir) (w : World) (filename source_code : Str) :
    Except DenoErr Str :=
  readToString w (cache_path d filename source_code)

/-- Embeds code_cache: succeed without writing when the entry already
exists, else write the output; the model write succeeds. -/
def code_cache (d : DenoDir) (w : World) (filename source_code output_code : Str) :
    World × Res Unit :=
  if (assocFind w.files (cache_path d filename source_code)).isSome then
    (w, .ok ())
  else
    let p := cache_path d filename source_code
    ({ w with files := setFile w.files p (.content output_code) }, .ok ())

structure CodeFetchOutput where
  module_name : Str
  filename : Str
  source_code : Str
  maybe_output_code : Option Str
deriving DecidableEq

/-- The rewritten user-facing message for a not-found source load. -/
def cannotResolveMsg (ms cf : Str) : Str :=
  "Cannot resolve module \"".data ++ ms ++ "\" from \"".data ++ cf ++ ['"']

/-- Embeds code_fetch: resolve, load the source (a not-found load is
rewritten to the cannot-resolve message), then look up the compiled
cache, where not-found means no cached output rather than failure. -/
def code_fetch (d : DenoDir) (w : World) (module_specifier containing_file : Str) :
    World × Res CodeFetchOutput :=
  match resolve_module d.deps module_specifier containing_file with
  | .parseErr => (w, .err ⟨.urlParse, module_specifier⟩)
  | .panicked => (w, .panicked)
  | .ok module_name filename =>
    match get_source_code d w module_name filename with
    | (w', .panicked) => (w', .panicked)
    | (w', .err e) =>
      if e.kind = .notFound then
        (w', .err ⟨.notFound, cannotResolveMsg module_specifier containing_file⟩)
      else (w', .err e)
    | (w', .ok source_code) =>
      match load_cache d w' filename source_code with
      | .error e =>
        if e.kind = .notFound then
          (w', .ok ⟨module_name, filename, source_code, none⟩)
        else (w', .err e)
      | .ok output_code =>
        (w', .ok ⟨module_name, filename, source_code, some output_code⟩)

example :
    code_fetch ⟨"/r/gen".data, "/r/deps".data, false⟩
      ⟨[("/t/a.ts".data, .content "x".data)], [], [], []⟩
      "/t/a.ts".data ['.'] =
    (⟨[("/t/a.ts".data, .content "x".data)], [], [], []⟩,
      .ok ⟨"/t/a.ts".data, "/t/a.ts".data, "x".data, none⟩) := by decide

example :
    code_fetch ⟨"/r/gen".data, "/r/deps".data, false⟩
      ⟨[], [], [], []⟩ "/no/such.ts".data ['.'] =
    (⟨[], [], [], []⟩,
      .err ⟨.notFound,
        cannotResolveMsg "/no/such.ts".data ['.']⟩) := by decide

/-! ## Claims C5 and C6: remote fetch gating and the write-once cache -/

theorem assocFind_setFile (fs : List (Str × FileE)) (k : Str) (e : FileE) :
    assocFind (setFile fs k e) k = some e := by
  induction fs with
  | nil => simp [setFile, assocFind]
  | cons kv rest ih =>
    obtain ⟨k', v⟩ := kv
    by_cases h : k' = k <;> simp [setFile, assocFind, h, ih]

/-- C5: with no reload and a readable cached file, fetch_remote_source
returns those bytes with no fetch invocation and no world change; with
reload set or the file absent it always invokes the fetch primitive,
and on fetch success it creates the missing parent directories, writes
the fetched text verbatim, and returns it (on fetch failure the error
propagates after the invocation). -/
theorem fetch_remote_source_gating :
    (∀ (d : DenoDir) (w : World) (mn fn src : Str),
      d.reload = false →
      assocFind w.files fn = some (.content src) →
      fetch_remote_source d w mn fn = (w, .ok src)) ∧
    (∀ (d : DenoDir) (w : World) (mn fn : Str),
      d.reload = true ∨ assocFind w.files fn = none →
      (fetch_remote_source d w mn fn).1.fetchLog = w.fetchLog ++ [mn] ∧
      (∀ src, assocFind w.remote mn = some src →
        (fetch_remote_source d w mn fn).2 = .ok src ∧
        assocFind (fetch_remote_source d w mn fn).1.files fn =
          some (.content src) ∧
        (∀ par, parentOf fn = some par →
          ∀ a ∈ dirChain par, a ∈ (fetch_remote_source d w mn fn).1.dirs)) ∧
      (assocFind w.remote mn = none →
        (fetch_remote_source d w mn fn).2 = .err ⟨.fetchErr, mn⟩ ∧
        (fetch_remote_source d w mn fn).1.files = w.files)) := by
  constructor
  · intro d w mn fn src hrel hfile
    have hcond : (d.reload || (assocFind w.files fn).isNone) = false := by
      rw [hrel, hfile]
      rfl
    unfold fetch_remote_source
    rw [if_neg (by rw [hcond]; simp)]
    unfold readToString
    rw [hfile]
  · intro d w mn fn hcond'
    have hcond : (d.reload || (assocFind w.files fn).isNone) = true := by
      rcases hcond' with h | h
      · rw [h]; rfl
      · rw [h]; simp
    cases hrm : assocFind w.remote mn with
    | none =>
      have heq : fetch_remote_source d w mn fn =
          (⟨w.files, w.dirs, w.fetchLog ++ [mn], w.remote⟩, .err ⟨.fetchErr, mn⟩) := by
        unfold fetch_remote_source
        rw [if_pos hcond]
        simp only [hrm]
      rw [heq]
      refine ⟨rfl, ?_, fun _ => ⟨rfl, rfl⟩⟩
      intro src hsome
      exact absurd hsome (by simp)
    | some src0 =>
      cases hp : parentOf fn with
      | none =>
        have heq : fetch_remote_source d w mn fn =
            (⟨setFile w.files fn (.content src0), w.dirs,
              w.fetchLog ++ [mn], w.remote⟩, .ok src0) := by
          unfold fetch_remote_source
          rw [if_pos hcond]
          simp only [hrm, hp]
        rw [heq]
        refine ⟨rfl, ?_, ?_⟩
        · intro src hsome
          rw [Option.some.injEq] at hsome
          subst hsome
          refine ⟨rfl, assocFind_setFile _ _ _, ?_⟩
          intro par hpar
          exact absurd hpar (by simp)
        · intro hnone
          exact absurd hnone (by simp)
      | some par0 =>
        have heq : fetch_remote_source d w mn fn =
            (⟨setFile w.files fn (.content src0), addDirAll w.dirs par0,
              w.fetchLog ++ [mn], w.remote⟩, .ok src0) := by
          unfold fetch_remote_source
          rw [if_pos hcond]
          simp only [hrm, hp]
        rw [heq]
        refine ⟨rfl, ?_, ?_⟩
        · intro src hsome
          rw [Option.some.injEq] at hsome
          subst hsome
          refine ⟨rfl, assocFind_setFile _ _ _, ?_⟩
          intro par hpar a ha
          rw [Option.some.injEq] at hpar
          subst hpar
          show a ∈ addDirAll w.dirs par0
          unfold addDirAll
          exact List.mem_append_left _ ha
        · intro hnone
          exact absurd hnone (by simp)

/-- Witness for the fetch gating at a pre-populated cache file with no
reload: the bytes come back and the world, in particular the fetch
log, is unchanged. -/
theorem fetch_remote_source_gating_witness :
    fetch_remote_source ⟨"/r/gen".data, "/r/deps".data, false⟩
      ⟨[("/r/deps/h/a.ts".data, .content "body".data)], [], [], []⟩
      "http://h/a.ts".data "/r/deps/h/a.ts".data =
    (⟨[("/r/deps/h/a.ts".data, .content "body".data)], [], [], []⟩,
      .ok "body".data) :=
  fetch_remote_source_gating.1 _ _ _ _ _ rfl (by decide)

/-- C6: a compiled-cache entry that already exists makes code_cache
succeed without writing, so a second store with the same key and a
different payload is the identity and the first payload survives. -/
theorem code_cache_write_once :
    (∀ (d : DenoDir) (w : World) (fn src out : Str),
      (assocFind w.files (cache_path d fn src)).isSome = true →
      code_cache d w fn src out = (w, .ok ())) ∧
    (∀ (d : DenoDir) (w : World) (fn src o1 o2 : Str),
      code_cache d (code_cache d w fn src o1).1 fn src o2 =
        ((code_cache d w fn src o1).1, .ok ()) ∧
      (assocFind w.files (cache_path d fn src) = none →
        assocFind (code_cache d w fn src o1).1.files (cache_path d fn src) =
          some (.content o1))) := by
  constructor
  · intro d w fn src out hsome
    unfold code_cache
    rw [if_pos hsome]
  · intro d w fn src o1 o2
    cases hlook : assocFind w.files (cache_path d fn src) with
    | some e =>
      have h1 : code_cache d w fn src o1 = (w, .ok ()) := by
        unfold code_cache
        rw [if_pos (by rw [hlook]; rfl)]
      rw [h1]
      refine ⟨?_, fun hnone => absurd hnone (by simp)⟩
      unfold code_cache
      rw [if_pos (by rw [hlook]; rfl)]
    | none =>
      have h1 : code_cache d w fn src o1 =
          (⟨setFile w.files (cache_path d fn src) (.content o1),
            w.dirs, w.fetchLog, w.remote⟩, .ok ()) := by
        unfold code_cache
        rw [if_neg (by rw [hlook]; simp)]
      rw [h1]
      have hfound : assocFind (setFile w.files (cache_path d fn src)
          (.content o1)) (cache_path d fn src) = some (.content o1) :=
        assocFind_setFile _ _ _
      refine ⟨?_, fun _ => hfound⟩
      unfold code_cache
      rw [if_pos ?_]
      show (assocFind (setFile w.files (cache_path d fn src) (.content o1))
        (cache_path d fn src)).isSome = true
      rw [hfound]
      rfl

/-- Witness for write-once at a concrete key: the second store with a
different payload is the identity and the first payload survives. -/
theorem code_cache_write_once_witness :
    (assocFind (⟨[], [], [], []⟩ : World).files
        (cache_path ⟨"/g".data, "/d".data, false⟩ "a.ts".data "1".data) = none) ∧
    code_cache ⟨"/g".data, "/d".data, false⟩
      (code_cache ⟨"/g".data, "/d".data, false⟩ ⟨[], [], [], []⟩
        "a.ts".data "1".data "out1".data).1 "a.ts".data "1".data "out2".data =
      ((code_cache ⟨"/g".data, "/d".data, false⟩ ⟨[], [], [], []⟩
        "a.ts".data "1".data "out1".data).1, .ok ()) ∧
    assocFind (code_cache ⟨"/g".data, "/d".data, false⟩ ⟨[], [], [], []⟩
        "a.ts".data "1".data "out1".data).1.files
      (cache_path ⟨"/g".data, "/d".data, false⟩ "a.ts".data "1".data) =
      some (.content "out1".data) :=
  ⟨by decide,
    (code_cache_write_once.2 ⟨"/g".data, "/d".data, false⟩ ⟨[], [], [], []⟩
      "a.ts".data "1".data "out1".data "out2".data).1,
    (code_cache_write_once.2 ⟨"/g".data, "/d".data, false⟩ ⟨[], [], [], []⟩
      "a.ts".data "1".data "out1".data "out2".data).2 (by decide)⟩

/-! ## Claims C7 and C8: error propagation in code_fetch -/

deriving instance DecidableEq for Except

/-- C7: after a successful source load, a not-found compiled-cache
lookup is absorbed into an output with no cached code; a successful
lookup attaches the cached output; any other cache-read error
propagates. -/
theorem code_fetch_cache_miss_not_error :
    ∀ (d : DenoDir) (w w' : World) (ms cf mn fn src : Str),
      resolve_module d.deps ms cf = .ok mn fn →
      get_source_code d w mn fn = (w', .ok src) →
      (∀ e, load_cache d w' fn src = .error e → e.kind = .notFound →
        code_fetch d w ms cf = (w', .ok ⟨mn, fn, src, none⟩)) ∧
      (∀ oc, load_cache d w' fn src = .ok oc →
        code_fetch d w ms cf = (w', .ok ⟨mn, fn, src, some oc⟩)) ∧
      (∀ e, load_cache d w' fn src = .error e → e.kind ≠ .notFound →
        code_fetch d w ms cf = (w', .err e)) := by
  intro d w w' ms cf mn fn src hres hgsc
  have hcf : code_fetch d w ms cf =
      ((match load_cache d w' fn src with
       | .error e =>
         if e.kind = .notFound then (w', Res.ok ⟨mn, fn, src, none⟩)
         else (w', Res.err e)
       | .ok oc => (w', Res.ok ⟨mn, fn, src, some oc⟩)) :
        World × Res CodeFetchOutput) := by
    simp only [code_fetch, hres, hgsc]
  refine ⟨?_, ?_, ?_⟩
  · intro e hl hk
    rw [hcf, hl]
    show (if e.kind = .notFound then
        (w', Res.ok (⟨mn, fn, src, none⟩ : CodeFetchOutput))
      else (w', Res.err e)) = (w', Res.ok ⟨mn, fn, src, none⟩)
    rw [if_pos hk]
  · intro oc hl
    rw [hcf, hl]
  · intro e hl hk
    rw [hcf, hl]
    show (if e.kind = .notFound then
        (w', Res.ok (⟨mn, fn, src, none⟩ : CodeFetchOutput))
      else (w', Res.err e)) = (w', Res.err e)
    rw [if_neg hk]

/-- Witness for the absorbed cache miss: a present local file and an
empty compiled cache give an output with no cached code. -/
theorem code_fetch_cache_miss_not_error_witness :
    (resolve_module "/r/deps".data "/t/a.ts".data ['.'] =
      .ok "/t/a.ts".data "/t/a.ts".data ∧
    get_source_code ⟨"/r/gen".data, "/r/deps".data, false⟩
      ⟨[("/t/a.ts".data, .content "x".data)], [], [], []⟩
      "/t/a.ts".data "/t/a.ts".data =
      (⟨[("/t/a.ts".data, .content "x".data)], [], [], []⟩, .ok "x".data) ∧
    load_cache ⟨"/r/gen".data, "/r/deps".data, false⟩
      ⟨[("/t/a.ts".data, .content "x".data)], [], [], []⟩
      "/t/a.ts".data "x".data =
      .error ⟨.notFound,
        cache_path ⟨"/r/gen".data, "/r/deps".data, false⟩ "/t/a.ts".data "x".data⟩) ∧
    code_fetch ⟨"/r/gen".data, "/r/deps".data, false⟩
      ⟨[("/t/a.ts".data, .content "x".data)], [], [], []⟩
      "/t/a.ts".data ['.'] =
      (⟨[("/t/a.ts".data, .content "x".data)], [], [], []⟩,
        .ok ⟨"/t/a.ts".data, "/t/a.ts".data, "x".data, none⟩) :=
  ⟨⟨by decide, by decide, by decide⟩,
    (code_fetch_cache_miss_not_error ⟨"/r/gen".data, "/r/deps".data, false⟩
      ⟨[("/t/a.ts".data, .content "x".data)], [], [], []⟩
      ⟨[("/t/a.ts".data, .content "x".data)], [], [], []⟩
      "/t/a.ts".data ['.'] "/t/a.ts".data "/t/a.ts".data "x".data
      (by decide) (by decide)).1
      ⟨.notFound, cache_path ⟨"/r/gen".data, "/r/deps".data, false⟩
        "/t/a.ts".data "x".data⟩ (by decide) (by decide)⟩

/-- C8: a not-found initial source load is rewritten into the message
naming the original specifier and containing file; any other load error
propagates unchanged. -/
theorem code_fetch_not_found_rewritten :
    ∀ (d : DenoDir) (w w' : World) (ms cf mn fn : Str) (e : DenoErr),
      resolve_module d.deps ms cf = .ok mn fn →
      get_source_code d w mn fn = (w', .err e) →
      (e.kind = .notFound →
        code_fetch d w ms cf =
          (w', .err ⟨.notFound, cannotResolveMsg ms cf⟩)) ∧
      (e.kind ≠ .notFound → code_fetch d w ms cf = (w', .err e)) := by
  intro d w w' ms cf mn fn e hres hgsc
  have hcf : code_fetch d w ms cf =
      (if e.kind = .notFound then
        (w', Res.err ⟨.notFound, cannotResolveMsg ms cf⟩)
      else (w', Res.err e)) := by
    simp only [code_fetch, hres, hgsc]
  constructor
  · intro hk
    rw [hcf, if_pos hk]
  · intro hk
    rw [hcf, if_neg hk]

/-- Witness for the rewritten not-found: a missing local file yields
the cannot-resolve message naming specifier and containing file. -/
theorem code_fetch_not_found_rewritten_witness :
    (resolve_module "/r/deps".data "/no/such.ts".data ['.'] =
      .ok "/no/such.ts".data "/no/such.ts".data ∧
    get_source_code ⟨"/r/gen".data, "/r/deps".data, false⟩
      ⟨[], [], [], []⟩ "/no/such.ts".data "/no/such.ts".data =
      (⟨[], [], [], []⟩, .err ⟨.notFound, "/no/such.ts".data⟩)) ∧
    code_fetch ⟨"/r/gen".data, "/r/deps".data, false⟩ ⟨[], [], [], []⟩
      "/no/such.ts".data ['.'] =
      (⟨[], [], [], []⟩,
        .err ⟨.notFound, cannotResolveMsg "/no/such.ts".data ['.']⟩) :=
  ⟨⟨by decide, by decide⟩,
    (code_fetch_not_found_rewritten ⟨"/r/gen".data, "/r/deps".data, false⟩
      ⟨[], [], [], []⟩ ⟨[], [], [], []⟩ "/no/such.ts".data ['.']
      "/no/such.ts".data "/no/such.ts".data ⟨.notFound, "/no/such.ts".data⟩
      (by decide) (by decide)).1 rfl⟩

/-! ## Claim C4: purity of resolution -/

theorem code_fetch_ok_inv (d : DenoDir) (w : World) (ms cf : Str) (w' : World)
    (o : CodeFetchOutput) (h : code_fetch d w ms cf = (w', .ok o)) :
    resolve_module d.deps ms cf = .ok o.module_name o.filename := by
  cases hres : resolve_module d.deps ms cf with
  | parseErr =>
    simp only [code_fetch, hres] at h
    simp at h
  | panicked =>
    simp only [code_fetch, hres] at h
    simp at h
  | ok mn fn =>
    simp only [code_fetch, hres] at h
    cases hg : get_source_code d w mn fn with
    | mk wg rg =>
      rw [hg] at h
      cases rg with
      | panicked => simp at h
      | err e =>
        dsimp only at h
        split at h
        · simp at h
        · simp at h
      | ok src =>
        dsimp only at h
        cases hl : load_cache d wg fn src with
        | error e =>
          rw [hl] at h
          dsimp only at h
          split at h
          · injection h with hw hr
            injection hr with ho
            subst ho
            rfl
          · simp at h
        | ok oc =>
          rw [hl] at h
          dsimp only at h
          injection h with hw hr
          injection hr with ho
          subst ho
          rfl

/-- C4: resolution as performed inside code_fetch is a pure function
of specifier, containing file and deps root: successful fetches from
any two worlds agree on module name and filename, a successful fetch
carries exactly the resolve_module output, and a resolution failure
leaves the world untouched. -/
theorem resolve_module_pure :
    (∀ (d : DenoDir) (w₁ w₂ : World) (ms cf : Str) (w₁' w₂' : World)
        (o₁ o₂ : CodeFetchOutput),
      code_fetch d w₁ ms cf = (w₁', .ok o₁) →
      code_fetch d w₂ ms cf = (w₂', .ok o₂) →
      o₁.module_name = o₂.module_name ∧ o₁.filename = o₂.filename) ∧
    (∀ (d : DenoDir) (w : World) (ms cf : Str) (w' : World)
        (o : CodeFetchOutput),
      code_fetch d w ms cf = (w', .ok o) →
      resolve_module d.deps ms cf = .ok o.module_name o.filename) ∧
    (∀ (d : DenoDir) (w : World) (ms cf : Str),
      resolve_module d.deps ms cf = RRes.parseErr →
      code_fetch d w ms cf = (w, .err ⟨.urlParse, ms⟩)) := by
  refine ⟨?_, fun d w ms cf w' o h => code_fetch_ok_inv d w ms cf w' o h, ?_⟩
  · intro d w₁ w₂ ms cf w₁' w₂' o₁ o₂ h₁ h₂
    have k₁ := code_fetch_ok_inv d w₁ ms cf w₁' o₁ h₁
    have k₂ := code_fetch_ok_inv d w₂ ms cf w₂' o₂ h₂
    rw [k₁] at k₂
    injection k₂ with e₁ e₂
    exact ⟨e₁, e₂⟩
  · intro d w ms cf hres
    simp only [code_fetch, hres]

/-- Witness for resolution purity: a successful concrete fetch carries
exactly the resolve_module output. -/
theorem resolve_module_pure_witness :
    code_fetch ⟨"/r/gen".data, "/r/deps".data, false⟩
      ⟨[("/t/a.ts".data, .content "x".data)], [], [], []⟩
      "/t/a.ts".data ['.'] =
      (⟨[("/t/a.ts".data, .content "x".data)], [], [], []⟩,
        .ok ⟨"/t/a.ts".data, "/t/a.ts".data, "x".data, none⟩) ∧
    resolve_module "/r/deps".data "/t/a.ts".data ['.'] =
      .ok (CodeFetchOutput.module_name
          ⟨"/t/a.ts".data, "/t/a.ts".data, "x".data, none⟩)
        (CodeFetchOutput.filename
          ⟨"/t/a.ts".data, "/t/a.ts".data, "x".data, none⟩) :=
  ⟨by decide,
    resolve_module_pure.2.1 ⟨"/r/gen".data, "/r/deps".data, false⟩
      ⟨[("/t/a.ts".data, .content "x".data)], [], [], []⟩
      "/t/a.ts".data ['.']
      ⟨[("/t/a.ts".data, .content "x".data)], [], [], []⟩
      ⟨"/t/a.ts".data, "/t/a.ts".data, "x".data, none⟩ (by decide)⟩

/-! ## Claim C10: remoteness is the literal http prefix -/

/-- C10: a specifier beginning with the literal http is never resolved
against the containing file (the result does not depend on it), such a
module name is remote for get_source_code, which dispatches it to the
fetch path, and the relative-looking import http_utils.ts is parsed
directly as a URL, which fails, instead of being joined to its base. -/
theorem remote_by_http_prefix :
    (∀ (deps ms cf cf₂ : Str), isAbsolute deps = true →
      "http".data.isPrefixOf ms = true →
      resolve_module deps ms cf = resolve_module deps ms cf₂) ∧
    (∀ (d : DenoDir) (w : World) (mn fn : Str),
      "http".data.isPrefixOf mn = true →
      is_remote mn = true ∧
      get_source_code d w mn fn = fetch_remote_source d w mn fn) ∧
    resolve_module "/r/deps".data "http_utils.ts".data "/a/b.ts".data =
      RRes.parseErr := by
  refine ⟨?_, ?_, by decide⟩
  · intro deps ms cf cf₂ hdeps hms
    obtain ⟨dt, rfl⟩ := isAbsolute_exists hdeps
    obtain ⟨t, rfl⟩ := (pfx_iff _ _).mp hms
    have hne : ("http".data ++ t) ≠ '/' :: dt := by
      simp only [show "http".data = ['h', 't', 't', 'p'] from rfl,
        List.cons_append]
      simp
    have hnu : (('/' :: dt) ++ ['/']).isPrefixOf ("http".data ++ t) = false := by
      simp only [show "http".data = ['h', 't', 't', 'p'] from rfl,
        List.cons_append, List.isPrefixOf]
      simp
    have hmsid := src_file_to_url_id ('/' :: dt) _ hne hnu
    have hrem : is_remote ("http".data ++ t) = true := hms
    simp only [resolve_module, hmsid, hrem, Bool.or_true, Bool.true_or, if_true]
  · intro d w mn fn hmn
    refine ⟨hmn, ?_⟩
    unfold get_source_code
    rw [if_pos (show is_remote mn = true from hmn)]

/-- Witness for the base independence of a remote-looking specifier at
two different containing files. -/
theorem remote_by_http_prefix_witness :
    (isAbsolute "/d".data = true ∧
      "http".data.isPrefixOf "http://h/x.ts".data = true) ∧
    resolve_module "/d".data "http://h/x.ts".data "/a/b.ts".data =
      resolve_module "/d".data "http://h/x.ts".data ['.'] :=
  ⟨⟨by decide, by decide⟩,
    remote_by_http_prefix.1 "/d".data "http://h/x.ts".data
      "/a/b.ts".data ['.'] (by decide) (by decide)⟩

/-! ## Claim C9: the content hasher -/

theorem hexDigit_contains {m : Nat} (h : m < 16) :
    ("0123456789abcdef".data.contains (hexDigit m)) = true := by
  interval_cases m <;> decide

theorem hexOfBytes_all_hex : ∀ bs : List Nat,
    ((hexOfBytes bs).all (fun c => "0123456789abcdef".data.contains c)) = true := by
  intro bs
  induction bs with
  | nil => rfl
  | cons b rest ih =>
    show ((byteHex b ++ hexOfBytes rest).all
      (fun c => "0123456789abcdef".data.contains c)) = true
    rw [List.all_append, ih, Bool.and_true]
    show (("0123456789abcdef".data.contains (hexDigit (b / 16 % 16))) &&
      (("0123456789abcdef".data.contains (hexDigit (b % 16))) && true)) = true
    rw [hexDigit_contains (Nat.mod_lt _ (by omega)),
      hexDigit_contains (Nat.mod_lt _ (by omega))]
    rfl

theorem utf8_append (a b : Str) : utf8 (a ++ b) = utf8 a ++ utf8 b := by
  unfold utf8
  induction a with
  | nil => simp
  | cons c t ih =>
    show utf8Char c ++ (t ++ b).flatMap utf8Char =
      (utf8Char c ++ t.flatMap utf8Char) ++ b.flatMap utf8Char
    rw [ih, List.append_assoc]

/-- C9: the content hasher is a function of the exact concatenated
bytes of filename and source, its output is always lowercase hex, the
anchor digest of hello.ts with source 1+2 is the exact fixed value,
and the digests of the source test corpus are exactly the recorded
values and pairwise distinct. -/
theorem source_code_hash_spec :
    (∀ filename source_code : Str,
      source_code_hash filename source_code =
        hexOfBytes (sha1 (utf8 (filename ++ source_code)))) ∧
    (∀ filename source_code : Str,
      ((source_code_hash filename source_code).all
        (fun c => "0123456789abcdef".data.contains c)) = true) ∧
    source_code_hash "hello.ts".data "1+2".data =
      "a3e29aece8d35a19bf9da2bb1c086af71fb36ed5".data ∧
    source_code_hash "hello.ts".data "1".data =
      "914352911fc9c85170908ede3df1128d690dda41".data ∧
    source_code_hash "hi.ts".data "1+2".data =
      "2e396bc66101ecc642db27507048376d972b1b70".data ∧
    source_code_hash "hello.ts".data "1+2".data ≠
      source_code_hash "hello.ts".data "1".data ∧
    source_code_hash "hello.ts".data "1+2".data ≠
      source_code_hash "hi.ts".data "1+2".data ∧
    source_code_hash "hello.ts".data "1".data ≠
      source_code_hash "hi.ts".data "1+2".data := by
  refine ⟨?_, ?_, by decide, by decide, by decide, by decide, by decide, by decide⟩
  · intro filename source_code
    unfold source_code_hash
    rw [utf8_append]
  · intro filename source_code
    exact hexOfBytes_all_hex _
